import Mathlib

/-!
Shallow embedding of `src/data_profiling.py` (column type inference and
summarization engine).

Modelling conventions:
* A raw cell is `Cell`: missing (pandas `NaN`), a number (pandas float64,
  modelled exactly by `ℚ`), or a string (pandas object dtype).
* Fallible pandas operations return `Except PErr _` (a raised exception) or
  `Option _`; the caller's `try/except` blocks become `match`es.
* Python `float()` / `pd.to_numeric` string parsing is modelled by
  `parseFloat?` (sign, integer digits, optional fractional digits).
* The `.str` accessor is only valid on columns pandas stores with object
  dtype containing strings (or on empty columns); on a purely numeric
  column it raises `AttributeError` — see `strAccessorOk`.
* numpy float arithmetic is idealized to exact rational arithmetic.
-/

/-- A single cell of a dataframe column. -/
inductive Cell where
  | missing : Cell
  | num : ℚ → Cell
  | str : String → Cell
deriving Repr, DecidableEq

/-- Exceptions raised by the modelled pandas/numpy operations. -/
inductive PErr where
  | attributeError : String → PErr
  | valueError : String → PErr
  | typeError : String → PErr
deriving Repr, DecidableEq

deriving instance DecidableEq for Except

/-- A per-column summary table: the label column name, the measure column
name, and the rows (label cell, count-or-fraction). -/
structure SummaryTable where
  labelCol : String
  valueCol : String
  rows : List (Cell × ℚ)
deriving Repr, DecidableEq

/-! ### Monadic list helpers (recursion-friendly forms of `mapM`) -/

def mapOption {α β : Type} (f : α → Option β) : List α → Option (List β)
  | [] => some []
  | a :: l =>
    match f a with
    | none => none
    | some b =>
      match mapOption f l with
      | none => none
      | some bs => some (b :: bs)

def mapExcept {ε α β : Type} (f : α → Except ε β) : List α → Except ε (List β)
  | [] => .ok []
  | a :: l =>
    match f a with
    | .error e => .error e
    | .ok b =>
      match mapExcept f l with
      | .error e => .error e
      | .ok bs => .ok (b :: bs)

/-! ### Model of Python numeric string parsing (`float()` / `pd.to_numeric`) -/

def digitsVal (cs : List Char) : ℕ :=
  cs.foldl (fun n c => 10 * n + (c.toNat - 48)) 0

/-- Parse an unsigned decimal literal: `digits`, `digits.digits`, `digits.`
or `.digits`. -/
def parseUnsigned? (cs : List Char) : Option ℚ :=
  let intPart := cs.takeWhile (·.isDigit)
  let rest := cs.dropWhile (·.isDigit)
  match rest with
  | [] => if intPart.isEmpty then none else some (digitsVal intPart)
  | '.' :: frac =>
    if frac.all (·.isDigit) && (!intPart.isEmpty || !frac.isEmpty) then
      some ((digitsVal intPart : ℚ) + (digitsVal frac : ℚ) / (10 ^ frac.length : ℚ))
    else none
  | _ => none

/-- Model of Python `float(s)` on the strings this program feeds it. -/
def parseFloat? (s : String) : Option ℚ :=
  match s.data with
  | '-' :: rest => (parseUnsigned? rest).map (fun q => -q)
  | '+' :: rest => parseUnsigned? rest
  | cs => parseUnsigned? cs

/-! ### pandas primitives used by the classifier -/

/-- `astype("float")` on one cell: numbers kept, `NaN` kept as `NaN`
(`none` inside `some`), strings parsed (parse failure raises). -/
def astypeFloatCell : Cell → Option (Option ℚ)
  | Cell.missing => some none
  | Cell.num q => some (some q)
  | Cell.str s => (parseFloat? s).map some

/-- `series.astype("float")`; `none` means the cast raised. -/
def astypeFloat (col : List Cell) : Option (List (Option ℚ)) :=
  mapOption astypeFloatCell col

/-- numpy float→int cast: truncation toward zero. -/
def truncQ (q : ℚ) : ℤ :=
  if 0 ≤ q then ⌊q⌋ else -⌊-q⌋

/-- `series.astype("int")` on a float series: raises on `NaN`. -/
def astypeInt (xs : List (Option ℚ)) : Option (List ℤ) :=
  mapOption (fun x => match x with
    | none => none
    | some q => some (truncQ q)) xs

/-- pandas `Series.sum()`: skips `NaN`. -/
def nansum (xs : List (Option ℚ)) : ℚ :=
  (xs.filterMap id).sum

/-- The classifier's Integer check (lines 54-62):
`astype("float").astype("int").sum() == astype("float").sum()`, any raise
means failure. -/
def integerCheck (col : List Cell) : Bool :=
  match astypeFloat col with
  | none => false
  | some fs =>
    match astypeInt fs with
    | none => false
    | some ints => decide (((ints.sum : ℤ) : ℚ) = nansum fs)

/-- The classifier's Float check (lines 65-70):
`astype("float").sum() > 0`, any raise means failure. -/
def floatCheck (col : List Cell) : Bool :=
  match astypeFloat col with
  | none => false
  | some fs => decide (0 < nansum fs)

/-- Whether the `.str` accessor is valid on this column. pandas allows it
on object-dtype data whose inferred type is string/mixed/empty; on a
purely numeric (float64) column it raises `AttributeError`. Under this
program's loader a column holds strings exactly when pandas could not
parse it as numbers, so: valid iff some cell is a string or the column is
empty. -/
def strAccessorOk (col : List Cell) : Bool :=
  col.any (fun c => match c with | Cell.str _ => true | _ => false) || col.isEmpty

def currencySymbols : List String :=
  ["$", "€", "£", "USD", "GBP", "EUR", "¥", "₣", "₹", ","]

/-- Whether `pat` is a prefix of `l` (character-wise). -/
def leadsWith : List Char → List Char → Bool
  | [], _ => true
  | _ :: _, [] => false
  | p :: ps, c :: cs => p == c && leadsWith ps cs

/-- Remove every (non-overlapping, left-to-right) occurrence of the
non-empty pattern `pat`, with explicit fuel for structural recursion
(fuel = list length suffices: every step consumes at least one char). -/
def removeAllFuel (pat : List Char) : ℕ → List Char → List Char
  | 0, _ => []
  | _, [] => []
  | fuel + 1, c :: cs =>
    if leadsWith pat (c :: cs) then removeAllFuel pat fuel (cs.drop (pat.length - 1))
    else c :: removeAllFuel pat fuel cs

/-- Python `s.replace(sub, "")` for a non-empty literal `sub`. -/
def removeSub (s sub : String) : String :=
  String.mk (removeAllFuel sub.data s.data.length s.data)

/-- Whether `sub` occurs as a substring of `s`. -/
def strContainsSub (s sub : String) : Bool :=
  (List.range (s.data.length + 1)).any (fun i => leadsWith sub.data (s.data.drop i))

/-- The chained `.str.replace(..., regex=False)` calls of
`_currency_cleaner` (lines 33-45), as literal substring removal. -/
def stripCurrency (s : String) : String :=
  currencySymbols.foldl (fun t sym => removeSub t sym) s

/-- `_currency_cleaner` (lines 32-46): `.str.replace` chain. Raises
`AttributeError` on a numeric-dtype column; on mixed object data,
non-string cells become `NaN`. -/
def currencyCleaner (col : List Cell) : Except PErr (List Cell) :=
  if strAccessorOk col then
    .ok (col.map (fun c => match c with
      | Cell.str s => Cell.str (stripCurrency s)
      | _ => Cell.missing))
  else
    .error (PErr.attributeError "Can only use .str accessor with string values!")

/-- `pd.to_numeric` on a column: keeps `NaN`, parses strings, raises
`ValueError` on the first unparseable value. -/
def toNumeric (col : List Cell) : Except PErr (List (Option ℚ)) :=
  mapExcept (fun c => match c with
    | Cell.missing => .ok none
    | Cell.num q => .ok (some q)
    | Cell.str s =>
      match parseFloat? s with
      | some q => .ok (some q)
      | none => .error (PErr.valueError ("Unable to parse string \"" ++ s ++ "\""))) col

/-- One column of `_detect_col_dtypes` (lines 52-87). Integer and Float
checks fail silently; the currency cleaner call at line 73 sits OUTSIDE
the `try`, so its `AttributeError` propagates; `pd.to_numeric`'s raise is
caught (lines 74-79); `astype("string")` always succeeds. -/
def detectOne (col : List Cell) : Except PErr (Option String) :=
  if integerCheck col then .ok (some "integer")
  else if floatCheck col then .ok (some "float")
  else
    match currencyCleaner col with
    | .error e => .error e
    | .ok cleaned =>
      match toNumeric cleaned with
      | .ok _ => .ok (some "currency")
      | .error _ => .ok (some "string")

/-- `_detect_col_dtypes` (lines 49-88): a tag per column, in column
order; an uncaught exception aborts the whole dict construction. -/
def detectColDtypes (table : List (String × List Cell)) :
    Except PErr (List (String × Option String)) :=
  mapExcept (fun p => (detectOne p.2).map (fun t => (p.1, t))) table

/-! ### Exact value counts (`value_counts` path, lines 164-182) -/

/-- Distinct values in first-occurrence order: worker with an explicit
list of already-seen values (structural recursion). -/
def dedupFirstAux {α : Type} [DecidableEq α] (seen : List α) :
    List α → List α
  | [] => []
  | a :: l =>
    if a ∈ seen then dedupFirstAux seen l
    else a :: dedupFirstAux (a :: seen) l

/-- Distinct values in first-occurrence order (pandas hashtable order). -/
def dedupFirst {α : Type} [DecidableEq α] (l : List α) : List α :=
  dedupFirstAux [] l

/-- `len(series.value_counts().index)`: distinct present (non-missing)
values — `value_counts()` defaults to `dropna=True`. -/
def distinctPresent (col : List Cell) : ℕ :=
  (dedupFirst (col.filter (fun c => c != Cell.missing))).length

/-- Number of missing values in a column. -/
def missingCount (col : List Cell) : ℕ :=
  col.count Cell.missing

/-- pandas value ordering for `sort_values(ascending=True)`: values
compared within their kind, `NaN` placed last (`na_position="last"`). -/
def cellLeB : Cell → Cell → Bool
  | Cell.num x, Cell.num y => decide (x ≤ y)
  | Cell.num _, Cell.str _ => true
  | Cell.num _, Cell.missing => true
  | Cell.str _, Cell.num _ => false
  | Cell.str x, Cell.str y => decide (x ≤ y)
  | Cell.str _, Cell.missing => true
  | Cell.missing, Cell.num _ => false
  | Cell.missing, Cell.str _ => false
  | Cell.missing, Cell.missing => true

/-- Row order for `sort_values(by=<label column>, ascending=True)`. -/
def RowLe (a b : Cell × ℚ) : Prop := cellLeB a.1 b.1 = true

/-- Row order for `sort_values(by=<measure column>, ascending=False)`. -/
def RowGe (a b : Cell × ℚ) : Prop := b.2 ≤ a.2

instance : DecidableRel RowLe := fun a b => by unfold RowLe; infer_instance

instance : DecidableRel RowGe := fun a b => by unfold RowGe; infer_instance

/-- `series.value_counts(dropna=False, normalize=normalize)`: one row per
distinct value (missing included as a value), count descending, fractions
of total length when normalized. -/
def valueCountsRows (col : List Cell) (normalize : Bool) : List (Cell × ℚ) :=
  let keys := dedupFirst col
  let pairs := keys.map (fun v => (v, (col.count v : ℚ)))
  let sorted := List.insertionSort RowGe pairs
  if normalize then sorted.map (fun p => (p.1, p.2 / (col.length : ℚ))) else sorted

/-- Python `s.lower()` (character-wise, as this program only compares
ASCII option strings). -/
def pyLower (s : String) : String :=
  String.mk (s.data.map Char.toLower)

/-- The exact-count rows after the sort dispatch of lines 174-182:
`sort_by.lower() == "index"` sorts by value ascending, anything else by
measure descending. -/
def exactCountRows (col : List Cell) (sortBy : String) (normalize : Bool) :
    List (Cell × ℚ) :=
  let vc := valueCountsRows col normalize
  if pyLower sortBy = "index" then List.insertionSort RowLe vc
  else List.insertionSort RowGe vc

/-- The exact-count summary table (lines 165-182): label column named
after the column, measure column `pct|name` or `count|name`. -/
def exactTable (name : String) (col : List Cell) (sortBy : String)
    (normalize : Bool) : SummaryTable :=
  { labelCol := name
    valueCol := (if normalize then "pct|" else "count|") ++ name
    rows := exactCountRows col sortBy normalize }

/-! ### Frequency binning (`_generate_frequency_bins`, lines 91-137) -/

/-- Python round-half-to-even to an integer (the `.0f` rounding). -/
def roundHalfEven (q : ℚ) : ℤ :=
  let f := ⌊q⌋
  let r := q - (f : ℚ)
  if r < 1 / 2 then f
  else if 1 / 2 < r then f + 1
  else if f % 2 = 0 then f else f + 1

/-- Insert thousands separators into a reversed digit list. -/
def groupRev : List Char → List Char
  | c1 :: c2 :: c3 :: c4 :: rest => c1 :: c2 :: c3 :: ',' :: groupRev (c4 :: rest)
  | l => l

/-- Render a natural number with comma thousands separators. -/
def commaFmt (n : ℕ) : String :=
  String.mk ((groupRev (toString n).data.reverse).reverse)

/-- Python `format(x, " ,.0f")` — the format spec actually used at line
116 (`{edges[idx] : ,.0f}`): the space after the colon is the sign
option, so nonnegative numbers get a leading space. -/
def pyFmtF (q : ℚ) : String :=
  let n := roundHalfEven q
  if n < 0 then "-" ++ commaFmt n.natAbs else " " ++ commaFmt n.natAbs

/-- `np.histogram` range selection: `(0,1)` for empty data, the
half-unit-widened range for constant data, else `(min, max)`. -/
def histEdges (data : List ℚ) : ℚ × ℚ :=
  match data with
  | [] => (0, 1)
  | x :: xs =>
    let lo := xs.foldl min x
    let hi := xs.foldl max x
    if lo = hi then (lo - 1 / 2, lo + 1 / 2) else (lo, hi)

/-- The bin (0-9) a value falls into: half-open bins, last bin closed. -/
def binIdx (lo hi x : ℚ) : ℕ :=
  min 9 (Int.toNat ⌊(x - lo) * 10 / (hi - lo)⌋)

/-- The rows of the bin table before normalization: the null-count row
first (lines 120-132), then the 10 labelled bins of lines 111-118. -/
def binBaseRows (col : List (Option ℚ)) : List (Cell × ℚ) :=
  let countNulls : ℕ := col.count none
  let data := col.filterMap id
  let p := histEdges data
  let edge : ℕ → ℚ := fun i => p.1 + (i : ℚ) * (p.2 - p.1) / 10
  (Cell.missing, (countNulls : ℚ)) ::
    (List.range 10).map (fun i =>
      (Cell.str (pyFmtF (edge i) ++ " to <" ++ pyFmtF (edge (i + 1))),
       ((data.filter (fun x => binIdx p.1 p.2 x == i)).length : ℚ)))

/-- `_generate_frequency_bins` (lines 91-137). When `normalize`, every
value (missing row included) is divided by the sum of the value column
(`transform(lambda x: x / x.sum())`, line 135). -/
def generateFrequencyBins (fieldname : String) (col : List (Option ℚ))
    (normalize : Bool) : SummaryTable :=
  let colPfx := if normalize then "pct" else "count"
  let rows := binBaseRows col
  { labelCol := "bins|" ++ fieldname
    valueCol := colPfx ++ "|" ++ fieldname
    rows :=
      if normalize then
        let total := (rows.map Prod.snd).sum
        rows.map (fun r => (r.1, r.2 / total))
      else rows }

/-! ### Column summarizer and table profiler (`_count_distinct_excel`) -/

/-- Lines 159-161: a currency-tagged column is replaced by
`pd.to_numeric(_currency_cleaner(...))` before summarization. -/
def workingColumn (tag : Option String) (col : List Cell) :
    Except PErr (List Cell) :=
  if tag = some "currency" then
    match currencyCleaner col with
    | .error e => .error e
    | .ok cleaned =>
      match toNumeric cleaned with
      | .error e => .error e
      | .ok nums =>
        .ok (nums.map (fun x => match x with
          | some q => Cell.num q
          | none => Cell.missing))
  else .ok col

/-- `np.histogram` input coercion: a string cell in the data makes the
histogram call raise. -/
def cellsToNumeric (col : List Cell) : Except PErr (List (Option ℚ)) :=
  mapExcept (fun c => match c with
    | Cell.missing => .ok none
    | Cell.num q => .ok (some q)
    | Cell.str s =>
      .error (PErr.typeError ("histogram of non-numeric value " ++ s))) col

/-- One iteration of the column loop of `_count_distinct_excel`
(lines 158-188): clean currency columns, then exact counts when the tag
is `"string"` or fewer than 10 distinct present values, else bins. -/
def summarizeColumn (tag : Option String) (name : String) (col : List Cell)
    (sortBy : String) (normalize : Bool) : Except PErr SummaryTable :=
  match workingColumn tag col with
  | .error e => .error e
  | .ok wc =>
    if tag = some "string" ∨ distinctPresent wc < 10 then
      .ok (exactTable name wc sortBy normalize)
    else
      match cellsToNumeric wc with
      | .error e => .error e
      | .ok nums => .ok (generateFrequencyBins name nums normalize)

/-- `_count_distinct_excel` (lines 140-189): classify every column, then
summarize each, keyed by column name in column order. -/
def countDistinctExcel (table : List (String × List Cell)) (sortBy : String)
    (normalize : Bool) : Except PErr (List (String × SummaryTable)) :=
  match detectColDtypes table with
  | .error e => .error e
  | .ok tags =>
    mapExcept
      (fun p => (summarizeColumn p.2 p.1.1 p.1.2 sortBy normalize).map
        (fun t => (p.1.1, t)))
      (table.zip (tags.map Prod.snd))

/-! ### Observables and spec-side predicates -/

/-- A summary table produced by the exact-count branch: its label column
carries the bare column name. -/
def isExactTable (name : String) (t : SummaryTable) : Prop :=
  t.labelCol = name

/-- A summary table produced by the binning branch: its label column is
`bins|name`. -/
def isBinnedTable (name : String) (t : SummaryTable) : Prop :=
  t.labelCol = "bins|" ++ name

/-- Spec wording for the Float check: the value parses as a
floating-point number (missing cells become `NaN`, which is a float). -/
def parsesAsFloat : Cell → Prop
  | Cell.missing => True
  | Cell.num _ => True
  | Cell.str s => parseFloat? s ≠ none

/-- Spec wording: the sum of the parsed present values of a column. -/
def cellFloatVal : Cell → Option ℚ
  | Cell.missing => none
  | Cell.num q => some q
  | Cell.str s => parseFloat? s

def colFloatSum (col : List Cell) : ℚ :=
  (col.filterMap cellFloatVal).sum

/-! ### Helper lemmas -/

theorem cellLeB_total (x y : Cell) : cellLeB x y = true ∨ cellLeB y x = true := by
  cases x <;> cases y <;> simp [cellLeB] <;> exact le_total _ _

theorem cellLeB_trans {x y z : Cell} (h1 : cellLeB x y = true)
    (h2 : cellLeB y z = true) : cellLeB x z = true := by
  cases x <;> cases y <;> cases z <;> simp_all [cellLeB] <;> exact h1.trans h2

instance : IsTotal (Cell × ℚ) RowLe := ⟨fun a b => cellLeB_total a.1 b.1⟩

instance : IsTrans (Cell × ℚ) RowLe := ⟨fun _ _ _ => cellLeB_trans⟩

instance : IsTotal (Cell × ℚ) RowGe := ⟨fun a b => le_total b.2 a.2⟩

instance : IsTrans (Cell × ℚ) RowGe := ⟨fun _ _ _ h1 h2 => le_trans h2 h1⟩

theorem mem_dedupFirstAux {α : Type} [DecidableEq α] (a : α) :
    ∀ (l : List α) (seen : List α),
      a ∈ dedupFirstAux seen l ↔ (a ∈ l ∧ a ∉ seen) := by
  intro l
  induction l with
  | nil => intro seen; simp [dedupFirstAux]
  | cons x t ih =>
    intro seen
    by_cases hx : x ∈ seen
    · rw [dedupFirstAux, if_pos hx, ih seen]
      constructor
      · rintro ⟨h1, h2⟩
        exact ⟨List.mem_cons_of_mem _ h1, h2⟩
      · rintro ⟨h1, h2⟩
        rcases List.mem_cons.mp h1 with h1 | h1
        · exact absurd (h1 ▸ hx) h2
        · exact ⟨h1, h2⟩
    · rw [dedupFirstAux, if_neg hx]
      constructor
      · intro h
        rcases List.mem_cons.mp h with h | h
        · exact ⟨h ▸ List.mem_cons_self _ _, h ▸ hx⟩
        · obtain ⟨h1, h2⟩ := (ih (x :: seen)).mp h
          exact ⟨List.mem_cons_of_mem _ h1,
            fun hs => h2 (List.mem_cons_of_mem _ hs)⟩
      · rintro ⟨h1, h2⟩
        rcases List.mem_cons.mp h1 with h1 | h1
        · exact h1 ▸ List.mem_cons_self _ _
        · by_cases hax : a = x
          · exact hax ▸ List.mem_cons_self _ _
          · refine List.mem_cons_of_mem _ ((ih (x :: seen)).mpr ⟨h1, ?_⟩)
            intro hs
            rcases List.mem_cons.mp hs with hs | hs
            · exact hax hs
            · exact h2 hs

theorem mem_dedupFirst {α : Type} [DecidableEq α] (a : α) (l : List α) :
    a ∈ dedupFirst l ↔ a ∈ l := by
  rw [dedupFirst, mem_dedupFirstAux]
  simp

theorem mapExcept_ok {ε α β : Type} {f : α → Except ε β} :
    ∀ {l : List α} {r : List β}, mapExcept f l = .ok r →
      List.Forall₂ (fun a b => f a = .ok b) l r
  | [], r, h => by
    simp only [mapExcept, Except.ok.injEq] at h
    exact h ▸ List.Forall₂.nil
  | a :: l, r, h => by
    simp only [mapExcept] at h
    cases hfa : f a with
    | error e => rw [hfa] at h; exact absurd h (by simp)
    | ok b =>
      rw [hfa] at h
      cases hrec : mapExcept f l with
      | error e => rw [hrec] at h; exact absurd h (by simp)
      | ok bs =>
        rw [hrec] at h
        simp only [Except.ok.injEq] at h
        exact h ▸ List.Forall₂.cons hfa (mapExcept_ok hrec)

theorem forall₂_map_eq {α β γ : Type} {R : α → β → Prop} {f : α → γ} {g : β → γ}
    (hfg : ∀ a b, R a b → g b = f a) :
    ∀ {l1 : List α} {l2 : List β}, List.Forall₂ R l1 l2 → l2.map g = l1.map f := by
  intro l1 l2 h
  induction h with
  | nil => rfl
  | cons hab _ ih => simp [ih, hfg _ _ hab]

theorem forall₂_mem_right {α β : Type} {R : α → β → Prop} :
    ∀ {l1 : List α} {l2 : List β}, List.Forall₂ R l1 l2 →
      ∀ b ∈ l2, ∃ a ∈ l1, R a b := by
  intro l1 l2 h
  induction h with
  | nil => intro b hb; cases hb
  | cons hab _ ih =>
    intro b hb
    rcases List.mem_cons.mp hb with hb | hb
    · exact ⟨_, List.mem_cons_self _ _, hb ▸ hab⟩
    · rcases ih b hb with ⟨a, ha, hr⟩
      exact ⟨a, List.mem_cons_of_mem _ ha, hr⟩

theorem name_ne_bins (name : String) : name ≠ "bins|" ++ name := by
  intro h
  have h2 := congrArg String.length h
  rw [String.length_append] at h2
  have h5 : ("bins|" : String).length = 5 := rfl
  omega

theorem binIdx_lt_ten (lo hi x : ℚ) : binIdx lo hi x < 10 :=
  Nat.lt_succ_of_le (Nat.min_le_left _ _)

theorem sum_map_add_nat (l : List ℕ) (g h : ℕ → ℕ) :
    (l.map (fun i => g i + h i)).sum = (l.map g).sum + (l.map h).sum := by
  induction l with
  | nil => simp
  | cons x t ih => simp only [List.map_cons, List.sum_cons, ih]; omega

theorem sum_indicator_range (k n : ℕ) :
    ((List.range n).map (fun i => if k = i then 1 else 0)).sum
      = if k < n then 1 else 0 := by
  induction n with
  | zero => simp
  | succ n ih =>
    rw [List.range_succ, List.map_append, List.sum_append, ih]
    simp only [List.map_cons, List.map_nil, List.sum_cons, List.sum_nil]
    split_ifs <;> omega

theorem sum_bincounts (f : ℚ → ℕ) (hf : ∀ x, f x < 10) (l : List ℚ) :
    ((List.range 10).map
      (fun i => (l.filter (fun x => f x == i)).length)).sum = l.length := by
  induction l with
  | nil => simp
  | cons x t ih =>
    have hstep : (fun i : ℕ => ((x :: t).filter (fun y => f y == i)).length)
        = fun i : ℕ => (if f x = i then 1 else 0)
            + (t.filter (fun y => f y == i)).length := by
      funext i
      by_cases h : f x = i <;> simp [List.filter_cons, h] <;> omega
    rw [hstep, sum_map_add_nat, sum_indicator_range (f x) 10, ih]
    simp only [List.length_cons, if_pos (hf x)]
    omega

theorem count_none_filterMap (col : List (Option ℚ)) :
    col.count none + (col.filterMap id).length = col.length := by
  induction col with
  | nil => simp
  | cons c t ih =>
    cases c <;> simp_all [List.count_cons] <;> omega

theorem sum_snd_bins (data : List ℚ) (lo hi : ℚ) (lbl : ℕ → Cell) :
    (((List.range 10).map (fun i =>
        (lbl i, ((data.filter (fun x => binIdx lo hi x == i)).length : ℚ)))).map
      Prod.snd).sum = (data.length : ℚ) := by
  rw [List.map_map]
  have h1 : (Prod.snd ∘ fun i : ℕ =>
      (lbl i, ((data.filter (fun x => binIdx lo hi x == i)).length : ℚ)))
      = (fun n : ℕ => (n : ℚ)) ∘
        (fun i => (data.filter (fun x => binIdx lo hi x == i)).length) := rfl
  rw [h1, ← List.map_map, ← Nat.cast_list_sum,
    sum_bincounts _ (fun x => binIdx_lt_ten lo hi x)]

theorem binRows_snd_sum (col : List (Option ℚ)) :
    ((binBaseRows col).map Prod.snd).sum = (col.length : ℚ) := by
  simp only [binBaseRows, List.map_cons, List.sum_cons]
  rw [sum_snd_bins]
  exact_mod_cast count_none_filterMap col

theorem astypeFloatCell_none_iff (c : Cell) :
    astypeFloatCell c = none ↔ ¬ parsesAsFloat c := by
  cases c with
  | missing => simp [astypeFloatCell, parsesAsFloat]
  | num q => simp [astypeFloatCell, parsesAsFloat]
  | str s => cases hp : parseFloat? s <;> simp [astypeFloatCell, parsesAsFloat, hp]

theorem astypeFloatCell_some_val {c : Cell} {v : Option ℚ}
    (h : astypeFloatCell c = some v) : cellFloatVal c = v := by
  cases c with
  | missing => simp_all [astypeFloatCell, cellFloatVal]
  | num q => simp_all [astypeFloatCell, cellFloatVal]
  | str s =>
    cases hp : parseFloat? s <;> rw [astypeFloatCell, hp] at h <;>
      simp_all [cellFloatVal]

theorem astypeFloat_some_spec : ∀ {col : List Cell} {fs : List (Option ℚ)},
    astypeFloat col = some fs →
      (∀ c ∈ col, parsesAsFloat c) ∧ nansum fs = colFloatSum col := by
  intro col
  induction col with
  | nil =>
    intro fs h
    simp only [astypeFloat, mapOption, Option.some.injEq] at h
    subst h
    simp [nansum, colFloatSum]
  | cons c t ih =>
    intro fs h
    simp only [astypeFloat, mapOption] at h
    cases hc : astypeFloatCell c with
    | none => rw [hc] at h; exact absurd h (by simp)
    | some v =>
      rw [hc] at h
      cases ht : mapOption astypeFloatCell t with
      | none => rw [ht] at h; exact absurd h (by simp)
      | some vs =>
        rw [ht] at h
        simp only [Option.some.injEq] at h
        subst h
        have hiht : astypeFloat t = some vs := ht
        obtain ⟨ih1, ih2⟩ := ih hiht
        have hcp : parsesAsFloat c := by
          have hne : astypeFloatCell c ≠ none := by rw [hc]; simp
          rwa [ne_eq, astypeFloatCell_none_iff, not_not] at hne
        refine ⟨?_, ?_⟩
        · intro a ha
          rcases List.mem_cons.mp ha with ha | ha
          · exact ha ▸ hcp
          · exact ih1 a ha
        · have hv := astypeFloatCell_some_val hc
          cases v with
          | none =>
            simp only [nansum, List.filterMap_cons, hv] at ih2 ⊢
            simpa [colFloatSum, List.filterMap_cons, hv] using ih2
          | some q =>
            simp only [nansum, List.filterMap_cons, hv, List.sum_cons] at ih2 ⊢
            simp [colFloatSum, List.filterMap_cons, hv, List.sum_cons]
            simpa [nansum, colFloatSum] using ih2

theorem astypeFloat_none_spec : ∀ {col : List Cell},
    astypeFloat col = none → ∃ c ∈ col, ¬ parsesAsFloat c := by
  intro col
  induction col with
  | nil => intro h; simp [astypeFloat, mapOption] at h
  | cons c t ih =>
    intro h
    simp only [astypeFloat, mapOption] at h
    cases hc : astypeFloatCell c with
    | none =>
      exact ⟨c, List.mem_cons_self _ _, (astypeFloatCell_none_iff c).mp hc⟩
    | some v =>
      rw [hc] at h
      cases ht : mapOption astypeFloatCell t with
      | none =>
        obtain ⟨a, ha, hna⟩ := ih ht
        exact ⟨a, List.mem_cons_of_mem _ ha, hna⟩
      | some vs => rw [ht] at h; exact absurd h (by simp)

theorem mem_exactCountRows (r : Cell × ℚ) (col : List Cell) (sb : String)
    (nm : Bool) : r ∈ exactCountRows col sb nm ↔ r ∈ valueCountsRows col nm := by
  unfold exactCountRows
  by_cases h : pyLower sb = "index"
  · rw [if_pos h]
    exact (List.perm_insertionSort _ _).mem_iff
  · rw [if_neg h]
    exact (List.perm_insertionSort _ _).mem_iff

theorem mem_valueCountsRows_counts (r : Cell × ℚ) (col : List Cell) :
    r ∈ valueCountsRows col false
      ↔ ∃ v ∈ dedupFirst col, r = (v, (col.count v : ℚ)) := by
  unfold valueCountsRows
  rw [if_neg (by simp)]
  rw [(List.perm_insertionSort _ _).mem_iff]
  simp only [List.mem_map]
  constructor
  · rintro ⟨v, hv, heq⟩
    exact ⟨v, hv, heq.symm⟩
  · rintro ⟨v, hv, heq⟩
    exact ⟨v, hv, heq.symm⟩

/-! ### Claim theorems -/

unseal Rat.add Rat.mul Rat.inv Rat.sub in
/-- Claim C2 (code-bug evidence): classification is claimed never to raise,
but on the single-column table `a = [-1.5]` — a numeric column that fails
the Integer check (truncated sum `-1 ≠ -1.5`) and the Float check
(`-1.5 > 0` is false) — the currency check's `.str` accessor raises an
`AttributeError` that propagates out of `_detect_col_dtypes`, because the
`_currency_cleaner` call sits outside the `try` block. -/
theorem classifier_raises_on_numeric_nonpositive_column :
    detectColDtypes [("a", [Cell.num (-(3 : ℚ) / 2)])]
      = .error (PErr.attributeError
          "Can only use .str accessor with string values!") := by
  decide

/-- Claim C3: the classifier's Float check succeeds iff every value of the
column parses as a floating-point number (missing values parse to `NaN`)
and the sum of the parsed present values is strictly positive; hence a
fully numeric column whose values sum to zero or below is rejected. -/
theorem float_check_iff_all_parse_and_sum_pos (col : List Cell) :
    floatCheck col = true
      ↔ ((∀ c ∈ col, parsesAsFloat c) ∧ 0 < colFloatSum col) := by
  unfold floatCheck
  cases hf : astypeFloat col with
  | none =>
    obtain ⟨c, hc, hnc⟩ := astypeFloat_none_spec hf
    constructor
    · intro h; exact absurd h (by simp)
    · rintro ⟨h1, _⟩
      exact absurd (h1 c hc) hnc
  | some fs =>
    obtain ⟨h1, h2⟩ := astypeFloat_some_spec hf
    change decide (0 < nansum fs) = true ↔ _
    rw [h2]
    simp only [decide_eq_true_eq]
    exact ⟨fun h => ⟨h1, h⟩, fun h => h.2⟩

unseal Rat.add Rat.mul Rat.inv Rat.sub in
/-- Claim C4 (counterexample): the exact-count summary of `[1, 2, 3, 4]`
has exactly the four value rows and NO missing-value row — a zero-count
`(null, 0)` row is never emitted (`value_counts(dropna=False)` only
includes `NaN` when it occurs). -/
theorem exact_counts_no_zero_missing_row :
    exactCountRows [Cell.num 1, Cell.num 2, Cell.num 3, Cell.num 4] "index" false
        = [(Cell.num 1, 1), (Cell.num 2, 1), (Cell.num 3, 1), (Cell.num 4, 1)]
    ∧ Cell.missing ∉
        (exactCountRows [Cell.num 1, Cell.num 2, Cell.num 3, Cell.num 4]
          "index" false).map Prod.fst := by
  exact ⟨by decide, by decide⟩

/-- Claim C4 (amended): an exact-count summary contains a missing-value
row exactly when the column actually contains a missing value, and any
missing row carries the exact number of missing values as its count. -/
theorem exact_counts_missing_row_iff (col : List Cell) (sb : String) :
    (Cell.missing ∈ (exactCountRows col sb false).map Prod.fst
        ↔ 0 < missingCount col)
    ∧ (exactCountRows col sb false).all
        (fun r => r.1 != Cell.missing || r.2 == (missingCount col : ℚ))
      = true := by
  constructor
  · rw [List.mem_map]
    constructor
    · rintro ⟨r, hr, hr1⟩
      obtain ⟨v, hv, heq⟩ :=
        (mem_valueCountsRows_counts r col).mp ((mem_exactCountRows r col sb false).mp hr)
      have hvm : v = Cell.missing := by rw [heq] at hr1; exact hr1
      rw [missingCount, ← hvm]
      exact List.count_pos_iff.mpr ((mem_dedupFirst v col).mp hv)
    · intro h0
      have hm : Cell.missing ∈ col := by
        rw [missingCount] at h0
        exact List.count_pos_iff.mp h0
      refine ⟨(Cell.missing, (col.count Cell.missing : ℚ)), ?_, rfl⟩
      rw [mem_exactCountRows, mem_valueCountsRows_counts]
      exact ⟨Cell.missing, (mem_dedupFirst _ col).mpr hm, rfl⟩
  · rw [List.all_eq_true]
    intro r hr
    obtain ⟨v, hv, heq⟩ :=
      (mem_valueCountsRows_counts r col).mp ((mem_exactCountRows r col sb false).mp hr)
    subst heq
    by_cases hm : v = Cell.missing
    · subst hm
      simp [missingCount]
    · simp [hm]

/-- Claim C5: for a column summarized by frequency binning with
`normalize=false`, the 10 bin counts plus the missing-value count (the
whole measure column of the bin table) sum to the column's total row
count: every present value lands in exactly one bin. -/
theorem bin_counts_plus_missing_eq_total (name : String)
    (col : List (Option ℚ)) :
    ((generateFrequencyBins name col false).rows.map Prod.snd).sum
      = (col.length : ℚ) := by
  simp only [generateFrequencyBins, Bool.false_eq_true, if_false]
  exact binRows_snd_sum col

/-- Claim C8: binning with `normalize=false` and dividing every row's
value (missing row included) by the column's total row count gives
exactly the `normalize=true` table (same label column, same rows) —
because the normalizing `transform(lambda x: x / x.sum())` divides by the
measure-column sum, which equals the total row count. -/
theorem bin_normalize_roundtrip (name : String) (col : List (Option ℚ))
    (h : 0 < col.length) :
    (generateFrequencyBins name col true).labelCol
        = (generateFrequencyBins name col false).labelCol
    ∧ (generateFrequencyBins name col true).rows
        = (generateFrequencyBins name col false).rows.map
            (fun r => (r.1, r.2 / (col.length : ℚ))) := by
  refine ⟨rfl, ?_⟩
  simp only [generateFrequencyBins, Bool.false_eq_true, if_false, if_true]
  rw [binRows_snd_sum]

/-- Witness for C8 at the one-row column `[some 1]`. -/
theorem bin_normalize_roundtrip_witness :
    (generateFrequencyBins "a" [some 1] true).labelCol
        = (generateFrequencyBins "a" [some 1] false).labelCol
    ∧ (generateFrequencyBins "a" [some 1] true).rows
        = (generateFrequencyBins "a" [some 1] false).rows.map
            (fun r => (r.1, r.2 / (([some 1] : List (Option ℚ)).length : ℚ))) :=
  bin_normalize_roundtrip "a" [some 1] (by decide)

/-- Claim C10: any string is accepted for `sort_by`; rows are sorted by
value ascending exactly when `sort_by.lower() == "index"`, and by
count/fraction descending for every other string. -/
theorem sort_by_dispatch (col : List Cell) (sortBy : String)
    (normalize : Bool) :
    (pyLower sortBy = "index" →
      (exactCountRows col sortBy normalize).Sorted RowLe)
    ∧ (pyLower sortBy ≠ "index" →
      (exactCountRows col sortBy normalize).Sorted RowGe) := by
  unfold exactCountRows
  constructor
  · intro h
    rw [if_pos h]
    exact List.sorted_insertionSort _ _
  · intro h
    rw [if_neg h]
    exact List.sorted_insertionSort _ _

/-- Witness for C10: `"INDEX"` (case-insensitive match) sorts ascending
by value; `"value"` and an unrecognized string both sort descending by
measure. -/
theorem sort_by_dispatch_witness :
    (exactCountRows [Cell.num 2, Cell.num 1] "INDEX" true).Sorted RowLe
    ∧ (exactCountRows [Cell.num 2, Cell.num 1] "value" true).Sorted RowGe
    ∧ (exactCountRows [Cell.num 2, Cell.num 1] "anything-else" true).Sorted
        RowGe :=
  ⟨(sort_by_dispatch [Cell.num 2, Cell.num 1] "INDEX" true).1 (by decide),
   (sort_by_dispatch [Cell.num 2, Cell.num 1] "value" true).2 (by decide),
   (sort_by_dispatch [Cell.num 2, Cell.num 1] "anything-else" true).2
     (by decide)⟩

theorem detectOne_ok_isSome {col : List Cell} {u : Option String}
    (h : detectOne col = .ok u) : u.isSome = true := by
  unfold detectOne at h
  by_cases h1 : integerCheck col = true
  · rw [if_pos h1] at h
    injection h with h
    subst h
    rfl
  · rw [if_neg h1] at h
    by_cases h2 : floatCheck col = true
    · rw [if_pos h2] at h
      injection h with h
      subst h
      rfl
    · rw [if_neg h2] at h
      cases hc : currencyCleaner col with
      | error e => rw [hc] at h; exact absurd h (by simp)
      | ok cleaned =>
        rw [hc] at h
        dsimp only at h
        cases hn : toNumeric cleaned with
        | error e =>
          rw [hn] at h
          injection h with h
          subst h
          rfl
        | ok v =>
          rw [hn] at h
          injection h with h
          subst h
          rfl

theorem cellsToNumeric_mapped (nums : List (Option ℚ)) :
    cellsToNumeric (nums.map (fun x => match x with
      | some q => Cell.num q
      | none => Cell.missing)) = .ok nums := by
  induction nums with
  | nil => rfl
  | cons x t ih =>
    cases x <;> simp [cellsToNumeric, mapExcept, List.map_cons] <;>
      simp only [cellsToNumeric] at ih <;> rw [ih]

/-- Claim C1: the summarizer takes the exact-count path iff the column's
tag is `"string"` or the (post-currency-cleaning) column has fewer than
10 distinct present values; every other column is binned; the two output
shapes are mutually exclusive, so no column is both. -/
theorem summarizer_dispatch (tag : Option String) (name : String)
    (col : List Cell) (sortBy : String) (normalize : Bool) (t : SummaryTable)
    (h : summarizeColumn tag name col sortBy normalize = .ok t) :
    ∃ wc, workingColumn tag col = .ok wc ∧
      (isExactTable name t ↔ (tag = some "string" ∨ distinctPresent wc < 10))
      ∧ (isBinnedTable name t
          ↔ ¬(tag = some "string" ∨ distinctPresent wc < 10))
      ∧ ¬(isExactTable name t ∧ isBinnedTable name t) := by
  unfold summarizeColumn at h
  cases hw : workingColumn tag col with
  | error e => rw [hw] at h; exact absurd h (by simp)
  | ok wc =>
    rw [hw] at h
    dsimp only at h
    refine ⟨wc, rfl, ?_⟩
    by_cases hc : tag = some "string" ∨ distinctPresent wc < 10
    · rw [if_pos hc] at h
      injection h with h2
      subst h2
      refine ⟨⟨fun _ => hc, fun _ => rfl⟩, ⟨?_, ?_⟩, ?_⟩
      · intro hb
        exact absurd hb (name_ne_bins name)
      · intro hnc
        exact absurd hc hnc
      · rintro ⟨_, hb⟩
        exact name_ne_bins name hb
    · rw [if_neg hc] at h
      cases hn : cellsToNumeric wc with
      | error e => rw [hn] at h; exact absurd h (by simp)
      | ok nums =>
        rw [hn] at h
        injection h with h2
        subst h2
        have hlab : (generateFrequencyBins name nums normalize).labelCol
            = "bins|" ++ name := rfl
        refine ⟨⟨?_, ?_⟩, ⟨fun _ => hc, fun _ => hlab⟩, ?_⟩
        · intro he
          rw [isExactTable, hlab] at he
          exact absurd he.symm (name_ne_bins name)
        · intro hcc
          exact absurd hcc hc
        · rintro ⟨he, _⟩
          rw [isExactTable, hlab] at he
          exact absurd he.symm (name_ne_bins name)

set_option maxRecDepth 20000 in
unseal Rat.add Rat.mul Rat.inv Rat.sub in
/-- Witness for C1: an integer-tagged 4-distinct-value column takes the
exact-count path. -/
theorem summarizer_dispatch_witness :
    ∃ wc, workingColumn (some "integer")
        [Cell.num 1, Cell.num 2, Cell.num 3, Cell.num 4] = .ok wc ∧
      (isExactTable "a" (exactTable "a"
            [Cell.num 1, Cell.num 2, Cell.num 3, Cell.num 4] "index" false)
          ↔ ((some "integer" : Option String) = some "string"
              ∨ distinctPresent wc < 10))
      ∧ (isBinnedTable "a" (exactTable "a"
            [Cell.num 1, Cell.num 2, Cell.num 3, Cell.num 4] "index" false)
          ↔ ¬((some "integer" : Option String) = some "string"
              ∨ distinctPresent wc < 10))
      ∧ ¬(isExactTable "a" (exactTable "a"
            [Cell.num 1, Cell.num 2, Cell.num 3, Cell.num 4] "index" false)
          ∧ isBinnedTable "a" (exactTable "a"
            [Cell.num 1, Cell.num 2, Cell.num 3, Cell.num 4] "index" false)) :=
  summarizer_dispatch (some "integer") "a"
    [Cell.num 1, Cell.num 2, Cell.num 3, Cell.num 4] "index" false
    (exactTable "a" [Cell.num 1, Cell.num 2, Cell.num 3, Cell.num 4]
      "index" false) (by decide)

set_option maxRecDepth 20000 in
unseal Rat.add Rat.mul Rat.inv Rat.sub in
/-- Claim C6 (counterexample): a column whose tag is unknown (`None`) and
which has 12 distinct values is sent to the BINNING path, not the
exact-count path: `None == "string"` is false, so an unknown tag is not
treated as string. -/
theorem unknown_tag_high_cardinality_binned :
    summarizeColumn none "a" ((List.range 12).map (fun i => Cell.num (i : ℚ)))
        "index" false
      = .ok (generateFrequencyBins "a"
          ((List.range 12).map (fun i => some ((i : ℚ)))) false)
    ∧ isBinnedTable "a" (generateFrequencyBins "a"
        ((List.range 12).map (fun i => some ((i : ℚ)))) false)
    ∧ ¬ isExactTable "a" (generateFrequencyBins "a"
        ((List.range 12).map (fun i => some ((i : ℚ)))) false) :=
  ⟨by decide, by unfold isBinnedTable; decide, by unfold isExactTable; decide⟩

/-- Claim C6 (amended): the profiler skips no column — the output has one
summary per input column, in order, under the original names — and the
classifier never actually produces an unknown tag (its string check
always succeeds); an unknown tag, were one to occur, would be dispatched
like a numeric tag, not like `"string"`. -/
theorem profiler_no_skip_no_unknown (table : List (String × List Cell))
    (sortBy : String) (normalize : Bool) (res : List (String × SummaryTable))
    (tags : List (String × Option String))
    (hres : countDistinctExcel table sortBy normalize = .ok res)
    (htags : detectColDtypes table = .ok tags) :
    res.map Prod.fst = table.map Prod.fst
    ∧ tags.all (fun p => p.2.isSome) = true := by
  constructor
  · unfold countDistinctExcel at hres
    rw [htags] at hres
    dsimp only at hres
    have hf := mapExcept_ok hres
    have hlen : table.length = tags.length :=
      (mapExcept_ok htags).length_eq
    have hmap := forall₂_map_eq (f := fun p : (String × List Cell) × Option String => p.1.1)
      (g := Prod.fst) ?_ hf
    · rw [hmap]
      have h2 : ((table.zip (tags.map Prod.snd)).map
          (fun p : (String × List Cell) × Option String => p.1.1))
          = ((table.zip (tags.map Prod.snd)).map Prod.fst).map Prod.fst := by
        rw [List.map_map]
        rfl
      rw [h2, List.map_fst_zip]
      simp [hlen]
    · intro a b hab
      cases hs : summarizeColumn a.2 a.1.1 a.1.2 sortBy normalize with
      | error e => rw [hs] at hab; exact absurd hab (by simp [Except.map])
      | ok u =>
        rw [hs] at hab
        simp only [Except.map] at hab
        injection hab with hab
        rw [← hab]
  · rw [List.all_eq_true]
    intro p hp
    obtain ⟨a, _, hab⟩ := forall₂_mem_right (mapExcept_ok htags) p hp
    cases hd : detectOne a.2 with
    | error e => rw [hd] at hab; exact absurd hab (by simp [Except.map])
    | ok u =>
      rw [hd] at hab
      simp only [Except.map] at hab
      injection hab with hab
      rw [← hab]
      exact detectOne_ok_isSome hd

set_option maxRecDepth 20000 in
unseal Rat.add Rat.mul Rat.inv Rat.sub in
/-- Witness for C6 at a one-column integer table. -/
theorem profiler_no_skip_witness :
    ([("a", exactTable "a" [Cell.num 1] "index" true)]
          : List (String × SummaryTable)).map Prod.fst
        = ([("a", [Cell.num 1])] : List (String × List Cell)).map Prod.fst
    ∧ ([("a", some "integer")] : List (String × Option String)).all
        (fun p => p.2.isSome) = true :=
  profiler_no_skip_no_unknown [("a", [Cell.num 1])] "index" true
    [("a", exactTable "a" [Cell.num 1] "index" true)] [("a", some "integer")]
    (by decide) (by decide)

set_option maxRecDepth 20000 in
unseal Rat.add Rat.mul Rat.inv Rat.sub in
/-- Claim C7 (counterexample): for a column of 11 values 0,10,...,100,
the bin covering `[0,10)` is labelled `" 0 to < 10"`, not `"0 to <10"` —
the f-string format spec `" ,.0f"` has a space sign flag, so every
nonnegative edge value is rendered with a leading space. -/
theorem bin_label_has_leading_space :
    ((generateFrequencyBins "x"
        ((List.range 11).map (fun i => some ((10 * i : ℕ) : ℚ))) false).rows.map
      Prod.fst)[1]? = some (Cell.str " 0 to < 10")
    ∧ (" 0 to < 10" : String) ≠ "0 to <10" :=
  ⟨by decide, by decide⟩

set_option maxRecDepth 20000 in
unseal Rat.add Rat.mul Rat.inv Rat.sub in
/-- Claim C7 (amended): the bin labels carry the space sign flag of the
actual format spec `"{lower: ,.0f} to <{upper: ,.0f}"`: the 0-100 column
0,10,...,100 yields the missing row followed by bins labelled
`" 0 to < 10"` through `" 90 to < 100"` (note the space after `<` too,
coming from the formatted nonnegative upper edge). -/
theorem bin_labels_space_sign_format :
    (generateFrequencyBins "x"
        ((List.range 11).map (fun i => some ((10 * i : ℕ) : ℚ))) false).rows
      = [(Cell.missing, 0),
         (Cell.str " 0 to < 10", 1), (Cell.str " 10 to < 20", 1),
         (Cell.str " 20 to < 30", 1), (Cell.str " 30 to < 40", 1),
         (Cell.str " 40 to < 50", 1), (Cell.str " 50 to < 60", 1),
         (Cell.str " 60 to < 70", 1), (Cell.str " 70 to < 80", 1),
         (Cell.str " 80 to < 90", 1), (Cell.str " 90 to < 100", 2)] := by
  decide

set_option maxRecDepth 20000 in
unseal Rat.add Rat.mul Rat.inv Rat.sub in
/-- Claim C9 (counterexample): driving the summarizer with a currency tag
on a column whose value still fails numeric parsing after cleaning raises
the underlying pandas parse error — a plain `ValueError` whose message
does not name the column — not a `DataTypeMismatch` condition naming
column and value (no such condition exists in the code). -/
theorem currency_mismatch_plain_error :
    summarizeColumn (some "currency") "price" [Cell.str "abc"] "index" false
      = .error (PErr.valueError "Unable to parse string \"abc\"")
    ∧ strContainsSub "Unable to parse string \"abc\"" "price" = false :=
  ⟨by decide, by decide⟩

/-- Claim C9 (amended): in the pipeline the situation cannot arise — a
column is tagged `"currency"` only when every cleaned value parses, so
re-cleaning inside the summarizer always succeeds and the column's
summary is produced without error. -/
theorem currency_tag_summarize_ok (name : String) (col : List Cell)
    (sortBy : String) (normalize : Bool)
    (h : detectOne col = .ok (some "currency")) :
    ∃ t, summarizeColumn (some "currency") name col sortBy normalize
      = .ok t := by
  unfold detectOne at h
  by_cases h1 : integerCheck col = true
  · rw [if_pos h1] at h
    exact absurd h (by decide)
  · rw [if_neg h1] at h
    by_cases h2 : floatCheck col = true
    · rw [if_pos h2] at h
      exact absurd h (by decide)
    · rw [if_neg h2] at h
      cases hc : currencyCleaner col with
      | error e => rw [hc] at h; exact absurd h (by simp)
      | ok cleaned =>
        rw [hc] at h
        dsimp only at h
        cases hn : toNumeric cleaned with
        | error e =>
          rw [hn] at h
          dsimp only at h
          exact absurd h (by decide)
        | ok nums =>
          unfold summarizeColumn workingColumn
          rw [if_pos rfl, hc]
          dsimp only
          rw [hn]
          dsimp only
          by_cases hcond : (some "currency" : Option String) = some "string"
              ∨ distinctPresent (nums.map (fun x => match x with
                  | some q => Cell.num q
                  | none => Cell.missing)) < 10
          · rw [if_pos hcond]
            exact ⟨_, rfl⟩
          · rw [if_neg hcond, cellsToNumeric_mapped nums]
            exact ⟨_, rfl⟩

set_option maxRecDepth 20000 in
unseal Rat.add Rat.mul Rat.inv Rat.sub in
/-- Witness for C9 at a column the classifier really tags currency. -/
theorem currency_tag_summarize_ok_witness :
    ∃ t, summarizeColumn (some "currency") "p"
        [Cell.str "$1", Cell.str "2"] "index" false = .ok t :=
  currency_tag_summarize_ok "p" [Cell.str "$1", Cell.str "2"] "index" false
    (by decide)
